import Mathlib

/-!
Verification development for the mapArchiveCleaner utility (main.go).

The program scans a directory tree for `.zip` archives and rewrites each
archive in place: entries matched by `shouldSkipFile` are dropped, `.png`
entries get their content replaced by a placeholder blob, all other entries
are copied verbatim with deflate compression.

Entry names are modelled as `List Char` (Go strings are byte sequences; zip
entry names use `/` as the path separator on every platform, and the program
runs the path functions of `path/filepath` over them).  Entry payloads are
modelled as `List Nat` (decoded bytes).
-/

/-- Model of Go `strings.HasPrefix sub` applied to `s`: `startsWith s sub`
is `true` iff `sub` is a prefix of `s`. -/
def startsWith : List Char → List Char → Bool
  | _, [] => true
  | [], _ :: _ => false
  | c :: s, d :: t => (c == d) && startsWith s t

/-- Model of Go `strings.Contains s sub`: `sub` occurs as a contiguous
substring of `s`. -/
def listContains : List Char → List Char → Bool
  | [], sub => sub.isEmpty
  | c :: s, sub => startsWith (c :: s) sub || listContains s sub

/-- Helper for `goExt`: walks the reversed path, accumulating the characters
seen so far in forward order; stops with `[]` at a path separator, and stops
returning the accumulated suffix at a dot.  This mirrors the backwards scan
of Go `filepath.Ext`. -/
def extSearch : List Char → List Char → List Char
  | [], _ => []
  | c :: rest, acc =>
    if c = '/' then []
    else if c = '.' then c :: acc
    else extSearch rest (c :: acc)

/-- Model of Go `filepath.Ext` (unix separator `/`): the suffix beginning at
the final dot in the final slash-separated element of the path; empty if
there is no dot. -/
def goExt (path : List Char) : List Char :=
  extSearch path.reverse []

/-- Helper for `goBase`: given the reversed path (with trailing separators
already stripped), returns the last slash-separated element in forward
order. -/
def afterLastSlash : List Char → List Char → List Char
  | [], acc => acc
  | c :: rest, acc => if c = '/' then acc else afterLastSlash rest (c :: acc)

/-- Model of Go `filepath.Base` (unix separator `/`): the last element of the
path after stripping trailing separators; `"."` for the empty path; `"/"` if
the path consists entirely of separators. -/
def goBase (path : List Char) : List Char :=
  if path = [] then ['.']
  else
    let revTrimmed := path.reverse.dropWhile (fun c => c = '/')
    let last := afterLastSlash revTrimmed []
    if last = [] then ['/'] else last

/-- The literal `"img-source"`. -/
def imgSourceStr : List Char := ['i', 'm', 'g', '-', 's', 'o', 'u', 'r', 'c', 'e']

/-- The literal `".lua"`. -/
def extLua : List Char := ['.', 'l', 'u', 'a']

/-- The literal `".psd"`. -/
def extPsd : List Char := ['.', 'p', 's', 'd']

/-- The literal `".xcf"`. -/
def extXcf : List Char := ['.', 'x', 'c', 'f']

/-- The literal `".blend"`. -/
def extBlend : List Char := ['.', 'b', 'l', 'e', 'n', 'd']

/-- The literal `".jpg"`. -/
def extJpg : List Char := ['.', 'j', 'p', 'g']

/-- The literal `".png"`. -/
def extPng : List Char := ['.', 'p', 'n', 'g']

/-- The literal `".zip"`. -/
def extZip : List Char := ['.', 'z', 'i', 'p']

/-- The literal `"LICENSE"`. -/
def baseLicense : List Char := ['L', 'I', 'C', 'E', 'N', 'S', 'E']

/-- The literal `"README.md"`. -/
def baseReadme : List Char := ['R', 'E', 'A', 'D', 'M', 'E', '.', 'm', 'd']

/-- The literal `"script.dat"`. -/
def baseScriptDat : List Char := ['s', 'c', 'r', 'i', 'p', 't', '.', 'd', 'a', 't']

/-- The literal `"banner.png"`. -/
def baseBannerPng : List Char := ['b', 'a', 'n', 'n', 'e', 'r', '.', 'p', 'n', 'g']

/-- The literal `"preview.png"`. -/
def basePreviewPng : List Char := ['p', 'r', 'e', 'v', 'i', 'e', 'w', '.', 'p', 'n', 'g']

/-- The literal `"preview.jpg"`. -/
def basePreviewJpg : List Char := ['p', 'r', 'e', 'v', 'i', 'e', 'w', '.', 'j', 'p', 'g']

/-- Model of `shouldSkipFile` from main.go: the early `return true` on the
`strings.Contains` test followed by the disjunction of extension and base
name tests is rendered as one boolean disjunction. -/
def shouldSkipFile (fileName : List Char) : Bool :=
  let ext := goExt fileName
  let base := goBase fileName
  listContains fileName imgSourceStr ||
  (ext == extLua ||
   ext == extPsd ||
   ext == extXcf ||
   ext == extBlend ||
   ext == extJpg ||
   base == baseLicense ||
   base == baseReadme ||
   base == baseScriptDat ||
   base == baseBannerPng ||
   base == basePreviewPng ||
   base == basePreviewJpg)

/-- A zip archive entry as the program uses it: a path-like name, a
modification timestamp, a compression method, and the decoded payload
bytes.  Mirrors the fields of `zip.FileHeader` the program touches
(`Name`, `Modified`, `Method`) plus the streamed content. -/
structure Entry where
  name : List Char
  modified : Nat
  method : Nat
  data : List Nat
deriving DecidableEq

/-- The numeric value of `zip.Deflate`. -/
def deflateMethod : Nat := 8

/-- The entry written by `addPlaceholderPNGToZip`: same name and timestamp
as the source entry, deflate method, placeholder bytes as content. -/
def placeholderEntry (placeholderPNG : List Nat) (file : Entry) : Entry :=
  { name := file.name
    modified := file.modified
    method := deflateMethod
    data := placeholderPNG }

/-- The entry written by `copyFileToZip`: same name and timestamp as the
source entry, deflate method, the source entry's decoded bytes streamed
through unchanged. -/
def copyFileToZip (file : Entry) : Entry :=
  { name := file.name
    modified := file.modified
    method := deflateMethod
    data := file.data }

/-- The stage at which `processZipFile` can fail, matching the wrapped
error messages in main.go. -/
inductive Stage where
  | openStage
  | placeholderStage
  | copyStage
  | writeStage
deriving DecidableEq

/-- The entry loop of `processZipFile` (lines 93-112 of main.go): skip
entries matched by `shouldSkipFile`, replace `.png` entries by the
placeholder, copy the rest.  `copyOk` models whether the I/O performed by
`copyFileToZip` (reading and inflating the source entry from disk)
succeeds; the first failing copy aborts the loop with an error, exactly as
the Go loop returns on the first `copyFileToZip` error. -/
def writeEntries (placeholderPNG : List Nat) (copyOk : Bool) :
    List Entry → Except Stage (List Entry)
  | [] => Except.ok []
  | file :: rest =>
    if shouldSkipFile file.name then writeEntries placeholderPNG copyOk rest
    else if goExt file.name = extPng then
      match writeEntries placeholderPNG copyOk rest with
      | Except.ok out => Except.ok (placeholderEntry placeholderPNG file :: out)
      | Except.error s => Except.error s
    else if copyOk then
      match writeEntries placeholderPNG copyOk rest with
      | Except.ok out => Except.ok (copyFileToZip file :: out)
      | Except.error s => Except.error s
    else Except.error Stage.copyStage

/-- One archive job's environment: the archive's path, the outcome of
opening/stat-ing/parsing the zip (`Except.ok` gives the entry list), and
whether the per-entry copy I/O and the final `os.WriteFile` succeed. -/
structure ZipJobInput where
  path : List Char
  parse : Except Unit (List Entry)
  copyOk : Bool
  writeOk : Bool

/-- Model of `processZipFile`: open/parse the archive, read the placeholder
PNG from disk (`ph` is the outcome of that per-job `os.ReadFile`), run the
entry loop into an in-memory buffer, then overwrite the original file.  On
success the archive's new entry list is returned; any failure aborts with
the stage that failed. -/
def processZipFile (ph : Except Unit (List Nat)) (j : ZipJobInput) :
    Except Stage (List Entry) :=
  match j.parse with
  | Except.error _ => Except.error Stage.openStage
  | Except.ok entries =>
    match ph with
    | Except.error _ => Except.error Stage.placeholderStage
    | Except.ok placeholderPNG =>
      match writeEntries placeholderPNG j.copyOk entries with
      | Except.error s => Except.error s
      | Except.ok out =>
        if j.writeOk then Except.ok out else Except.error Stage.writeStage

/-- The on-disk outcome of one dispatched job, as produced by the goroutine
body in main.go (lines 43-49): either the archive was fully rewritten to
the given entry list, or an error was printed with the archive's path and
cause and the archive file was removed with `os.Remove`. -/
inductive JobResult where
  | written : List Entry → JobResult
  | failedLoggedRemoved : List Char → Stage → JobResult
deriving DecidableEq

/-- The goroutine body of main.go: run `processZipFile`; on error, log the
path with the cause and delete the archive file. -/
def runJob (ph : Except Unit (List Nat)) (j : ZipJobInput) : JobResult :=
  match processZipFile ph j with
  | Except.ok out => JobResult.written out
  | Except.error s => JobResult.failedLoggedRemoved j.path s

/-- The dispatch loop: every discovered archive gets its own job, and no
job's outcome feeds back into the loop (the goroutine's error is consumed
inside the goroutine body, never returned to `filepath.Walk`). -/
def dispatchAll (ph : Except Unit (List Nat)) : List ZipJobInput → List JobResult
  | [] => []
  | j :: rest => runJob ph j :: dispatchAll ph rest

example : runJob (Except.ok [7]) ⟨['a'], Except.ok [⟨['x', '.', 'p', 'n', 'g'], 5, 0, [1]⟩], true, true⟩
    = JobResult.written [⟨['x', '.', 'p', 'n', 'g'], 5, deflateMethod, [7]⟩] := by decide
example : runJob (Except.ok [7]) ⟨['a'], Except.error (), true, true⟩
    = JobResult.failedLoggedRemoved ['a'] Stage.openStage := by decide

/-- Observable side effects of a run, in program order: the startup
`os.Stat` of the placeholder path, the early message when it is missing,
each job's `os.Open` of its zip, each job's `os.ReadFile` of the
placeholder PNG, the final `os.WriteFile` overwrite, the error log line,
the `os.Remove` of a failed job's archive, and the final completion
message. -/
inductive Event where
  | statPlaceholder
  | printMissing
  | openZip : List Char → Event
  | readPlaceholder
  | writeFile : List Char → Event
  | logError : List Char → Event
  | removeFile : List Char → Event
  | printDone
deriving DecidableEq

/-- The side-effect trace of one job, following the statement order of
`processZipFile` and of the goroutine body: the zip is opened first; the
placeholder PNG is read (via `os.ReadFile` inside `processZipFile`) only
after the zip parses; on success the file is overwritten; on any failure
the error is logged with the path and the archive file is removed. -/
def jobTrace (ph : Except Unit (List Nat)) (j : ZipJobInput) : List Event :=
  match j.parse with
  | Except.error _ => [Event.openZip j.path, Event.logError j.path, Event.removeFile j.path]
  | Except.ok entries =>
    Event.openZip j.path :: Event.readPlaceholder ::
      (match ph with
       | Except.error _ => [Event.logError j.path, Event.removeFile j.path]
       | Except.ok placeholderPNG =>
         match writeEntries placeholderPNG j.copyOk entries with
         | Except.error _ => [Event.logError j.path, Event.removeFile j.path]
         | Except.ok _ =>
           if j.writeOk then [Event.writeFile j.path]
           else [Event.logError j.path, Event.removeFile j.path])

/-- Model of `main` (the sequential composition of its effects; goroutine
interleavings permute events between jobs but do not change any per-job
trace or any event count, which is all the theorems below state): stat the
placeholder path; if it is missing, print the message and return; otherwise
run every discovered job and print the completion message.  The second
component is the process exit code, which is 0 on every path because `main`
returns normally in all cases. -/
def mainRun (placeholderExists : Bool) (ph : Except Unit (List Nat))
    (jobs : List ZipJobInput) : List Event × Nat :=
  if placeholderExists then
    (Event.statPlaceholder :: ((jobs.map (jobTrace ph)).flatten ++ [Event.printDone]), 0)
  else
    ([Event.statPlaceholder, Event.printMissing], 0)

/-- Whether a job's zip opens and parses successfully. -/
def parseOk (j : ZipJobInput) : Bool :=
  match j.parse with
  | Except.ok _ => true
  | Except.error _ => false

/-- Recognizer for the placeholder-read event. -/
def isReadPlaceholder : Event → Bool
  | Event.readPlaceholder => true
  | _ => false

/-- Recognizer for the startup placeholder-stat event. -/
def isStatPlaceholder : Event → Bool
  | Event.statPlaceholder => true
  | _ => false

/-- Number of times a trace reads the placeholder blob from disk. -/
def countReadPlaceholder (evs : List Event) : Nat :=
  (evs.filter isReadPlaceholder).length

/-- Number of times a trace stats the placeholder path. -/
def countStatPlaceholder (evs : List Event) : Nat :=
  (evs.filter isStatPlaceholder).length

/-- Mode of a non-directory filesystem object: a regular file, or anything
else visible to `lstat` (symlink, fifo, socket, device).  Directories are a
separate tree constructor. -/
inductive FMode where
  | regular
  | other
deriving DecidableEq

mutual

/-- A filesystem tree as `filepath.Walk` sees it: non-directory objects
carry their `lstat` mode; directories carry a flag saying whether reading
their child list succeeds (false models e.g. permission denied) and their
children in walk order. -/
inductive FSNode where
  | file : List Char → FMode → FSNode
  | dir : List Char → Bool → FSList → FSNode

/-- A list of sibling filesystem nodes. -/
inductive FSList where
  | nil : FSList
  | cons : FSNode → FSList → FSList

end

/-- The base name of a node. -/
def FSNode.name : FSNode → List Char
  | FSNode.file n _ => n
  | FSNode.dir n _ _ => n

/-- Concatenation of sibling lists. -/
def FSList.append : FSList → FSList → FSList
  | FSList.nil, l2 => l2
  | FSList.cons c rest, l2 => FSList.cons c (FSList.append rest l2)

mutual

/-- Model of `filepath.Walk` with the callback of main.go, at a node whose
full path is `path`.  Returns the paths dispatched to rewrite jobs so far
and the error the walk returned, if any.  The callback returns every
non-nil walk error it is handed, and `filepath.Walk` stops the entire walk
when the callback returns a non-nil error; a directory whose child listing
fails is therefore modelled as returning that directory's path as the
error.  The callback dispatches a job for every non-directory node whose
name has extension `.zip`. -/
def walkNode : List Char → FSNode → List (List Char) × Option (List Char)
  | path, FSNode.file nm _ => (if goExt nm = extZip then [path] else [], none)
  | path, FSNode.dir _ readable cs =>
    if readable then walkList path cs else ([], some path)

/-- Walk the children of a directory whose full path is `dirPath`, in
order, stopping at the first child whose walk returns an error. -/
def walkList : List Char → FSList → List (List Char) × Option (List Char)
  | _, FSList.nil => ([], none)
  | dirPath, FSList.cons c rest =>
    match walkNode (dirPath ++ '/' :: c.name) c with
    | (d, some e) => (d, some e)
    | (d, none) =>
      match walkList dirPath rest with
      | (d2, e2) => (d ++ d2, e2)

end

mutual

/-- Claim-side dispatch set: the paths of the regular files with extension
`.zip` in the tree (what C8 says is dispatched). -/
def regularZips : List Char → FSNode → List (List Char)
  | path, FSNode.file nm m =>
    if m = FMode.regular ∧ goExt nm = extZip then [path] else []
  | path, FSNode.dir _ _ cs => regularZipsList path cs

/-- Claim-side dispatch set over a sibling list. -/
def regularZipsList : List Char → FSList → List (List Char)
  | _, FSList.nil => []
  | dirPath, FSList.cons c rest =>
    regularZips (dirPath ++ '/' :: c.name) c ++ regularZipsList dirPath rest

end

mutual

/-- The paths of all non-directory nodes with extension `.zip` in the tree
(what the code actually dispatches when the walk completes). -/
def nonDirZips : List Char → FSNode → List (List Char)
  | path, FSNode.file nm _ => if goExt nm = extZip then [path] else []
  | path, FSNode.dir _ _ cs => nonDirZipsList path cs

/-- The non-directory `.zip` paths over a sibling list. -/
def nonDirZipsList : List Char → FSList → List (List Char)
  | _, FSList.nil => []
  | dirPath, FSList.cons c rest =>
    nonDirZips (dirPath ++ '/' :: c.name) c ++ nonDirZipsList dirPath rest

end

mutual

/-- Every directory in the tree can be read. -/
def allReadable : FSNode → Bool
  | FSNode.file _ _ => true
  | FSNode.dir _ readable cs => readable && allReadableList cs

/-- Every directory in a sibling list's subtrees can be read. -/
def allReadableList : FSList → Bool
  | FSList.nil => true
  | FSList.cons c rest => allReadable c && allReadableList rest

end

theorem startsWith_iff (sub : List Char) :
    ∀ s : List Char, startsWith s sub = true ↔ ∃ t, s = sub ++ t := by
  induction sub with
  | nil =>
    intro s
    cases s <;> simp [startsWith]
  | cons d ds ih =>
    intro s
    cases s with
    | nil => simp [startsWith]
    | cons c cs =>
      simp only [startsWith, Bool.and_eq_true, beq_iff_eq, ih, List.cons_append,
        List.cons.injEq]
      constructor
      · rintro ⟨rfl, t, rfl⟩
        exact ⟨t, rfl, rfl⟩
      · rintro ⟨t, rfl, rfl⟩
        exact ⟨rfl, t, rfl⟩

theorem listContains_iff (sub : List Char) :
    ∀ s : List Char, listContains s sub = true ↔ ∃ pre post, s = pre ++ sub ++ post := by
  intro s
  induction s with
  | nil =>
    simp only [listContains, List.isEmpty_iff]
    constructor
    · rintro rfl
      exact ⟨[], [], rfl⟩
    · rintro ⟨pre, post, h⟩
      rcases List.append_eq_nil.mp h.symm with ⟨h1, h2⟩
      exact (List.append_eq_nil.mp h1).2
  | cons c cs ih =>
    simp only [listContains, Bool.or_eq_true, startsWith_iff, ih]
    constructor
    · rintro (⟨t, h⟩ | ⟨pre, post, h⟩)
      · exact ⟨[], t, by simpa using h⟩
      · exact ⟨c :: pre, post, by simp [h]⟩
    · rintro ⟨pre, post, h⟩
      cases pre with
      | nil =>
        left
        exact ⟨post, by simpa using h⟩
      | cons p ps =>
        right
        rw [List.cons_append, List.cons_append] at h
        injection h with h1 h2
        exact ⟨ps, post, h2⟩

/-- C2: for every string `name`, `shouldSkipFile name` is true if and only
if `name` contains the substring `"img-source"`, or its extension (in the
sense of Go `filepath.Ext`) is exactly one of `.lua`, `.psd`, `.xcf`,
`.blend`, `.jpg`, or its base name (last path segment, in the sense of Go
`filepath.Base`) is exactly one of `LICENSE`, `README.md`, `script.dat`,
`banner.png`, `preview.png`, `preview.jpg`; for any other name it is false.
The function is a total function on all strings. -/
theorem shouldSkipFile_characterization (name : List Char) :
    shouldSkipFile name = true ↔
      ((∃ pre post, name = pre ++ imgSourceStr ++ post) ∨
       (goExt name = extLua ∨ goExt name = extPsd ∨ goExt name = extXcf ∨
        goExt name = extBlend ∨ goExt name = extJpg) ∨
       (goBase name = baseLicense ∨ goBase name = baseReadme ∨
        goBase name = baseScriptDat ∨ goBase name = baseBannerPng ∨
        goBase name = basePreviewPng ∨ goBase name = basePreviewJpg)) := by
  simp only [shouldSkipFile, Bool.or_eq_true, beq_iff_eq, listContains_iff]
  exact or_congr Iff.rfl (by tauto)

/-- C1: if an archive rewrites successfully, the output entry sequence is
the input sequence with every entry whose name satisfies the exclusion
filter removed, every retained `.png` entry given the placeholder blob as
content, and every other retained entry copied; retained entries keep
their name and modification timestamp, and the order of retained entries
is preserved (the output is literally `filter` then `map` of the input). -/
theorem rewriteSuccess_filterMap (placeholderPNG : List Nat) (copyOk : Bool)
    (entries out : List Entry)
    (h : writeEntries placeholderPNG copyOk entries = Except.ok out) :
    out = (entries.filter (fun e => !shouldSkipFile e.name)).map
      (fun e => if goExt e.name = extPng then placeholderEntry placeholderPNG e
                else copyFileToZip e) := by
  induction entries generalizing out with
  | nil =>
    rw [writeEntries] at h
    injection h with h
    simp [← h]
  | cons e rest ih =>
    rw [writeEntries] at h
    by_cases hskip : shouldSkipFile e.name
    · rw [if_pos hskip] at h
      simp [List.filter_cons, hskip, ih out h]
    · rw [if_neg hskip] at h
      simp only [Bool.not_eq_true] at hskip
      by_cases hpng : goExt e.name = extPng
      · rw [if_pos hpng] at h
        cases hrest : writeEntries placeholderPNG copyOk rest with
        | ok tail =>
          rw [hrest] at h
          injection h with h
          simp [← h, List.filter_cons, hskip, hpng, ih tail hrest]
        | error s =>
          rw [hrest] at h
          cases h
      · rw [if_neg hpng] at h
        cases hcopy : copyOk with
        | false =>
          rw [hcopy] at h
          simp at h
        | true =>
          rw [hcopy] at h
          simp only [if_pos] at h
          cases hrest : writeEntries placeholderPNG true rest with
          | ok tail =>
            rw [hrest] at h
            injection h with h
            rw [hcopy] at ih
            simp [← h, List.filter_cons, hskip, hpng, ih tail hrest]
          | error s =>
            rw [hrest] at h
            cases h

/-- Concrete instantiation of the C1 theorem: a three-entry archive with a
`.lua` entry (dropped), a `.png` entry (replaced), and a `.txt` entry
(copied). -/
theorem rewriteSuccess_filterMap_witness :
    writeEntries [9] true
        [⟨['a', '.', 'l', 'u', 'a'], 1, 0, [1]⟩,
         ⟨['b', '.', 'p', 'n', 'g'], 2, 0, [2]⟩,
         ⟨['c', '.', 't', 'x', 't'], 3, 0, [3]⟩]
      = Except.ok
        [⟨['b', '.', 'p', 'n', 'g'], 2, deflateMethod, [9]⟩,
         ⟨['c', '.', 't', 'x', 't'], 3, deflateMethod, [3]⟩] ∧
    [⟨['b', '.', 'p', 'n', 'g'], 2, deflateMethod, [9]⟩,
     ⟨['c', '.', 't', 'x', 't'], 3, deflateMethod, [3]⟩]
      = (([⟨['a', '.', 'l', 'u', 'a'], 1, 0, [1]⟩,
           ⟨['b', '.', 'p', 'n', 'g'], 2, 0, [2]⟩,
           ⟨['c', '.', 't', 'x', 't'], 3, 0, [3]⟩] : List Entry).filter
            (fun e => !shouldSkipFile e.name)).map
          (fun e => if goExt e.name = extPng then placeholderEntry [9] e
                    else copyFileToZip e) :=
  ⟨rfl,
   rewriteSuccess_filterMap [9] true
     [⟨['a', '.', 'l', 'u', 'a'], 1, 0, [1]⟩,
      ⟨['b', '.', 'p', 'n', 'g'], 2, 0, [2]⟩,
      ⟨['c', '.', 't', 'x', 't'], 3, 0, [3]⟩]
     [⟨['b', '.', 'p', 'n', 'g'], 2, deflateMethod, [9]⟩,
      ⟨['c', '.', 't', 'x', 't'], 3, deflateMethod, [3]⟩]
     rfl⟩

/-- C3: a retained entry whose extension is not `.png` is copied verbatim
into the output: same name, same modification timestamp, deflate
compression method, and its decoded byte content unchanged; the rest of
the loop continues on the remaining entries. -/
theorem copyVerbatim (placeholderPNG : List Nat) (file : Entry)
    (rest : List Entry) (out : List Entry)
    (h1 : shouldSkipFile file.name = false)
    (h2 : ¬ goExt file.name = extPng)
    (h : writeEntries placeholderPNG true (file :: rest) = Except.ok out) :
    ∃ tail,
      out = { name := file.name
              modified := file.modified
              method := deflateMethod
              data := file.data } :: tail ∧
      writeEntries placeholderPNG true rest = Except.ok tail := by
  rw [writeEntries] at h
  rw [if_neg (by simp [h1]), if_neg h2, if_pos rfl] at h
  cases hrest : writeEntries placeholderPNG true rest with
  | ok tail =>
    rw [hrest] at h
    injection h with h
    exact ⟨tail, h.symm, rfl⟩
  | error s =>
    rw [hrest] at h
    cases h

/-- Concrete instantiation of the C3 theorem at a `.txt` entry. -/
theorem copyVerbatim_witness :
    shouldSkipFile ['c', '.', 't', 'x', 't'] = false ∧
    ¬ goExt ['c', '.', 't', 'x', 't'] = extPng ∧
    ∃ tail,
      [({ name := ['c', '.', 't', 'x', 't'], modified := 3, method := deflateMethod,
          data := [3] } : Entry)]
        = { name := ['c', '.', 't', 'x', 't'], modified := 3, method := deflateMethod,
            data := [3] } :: tail ∧
      writeEntries [9] true [] = Except.ok tail :=
  ⟨by decide, by decide,
   copyVerbatim [9] ⟨['c', '.', 't', 'x', 't'], 3, 0, [3]⟩ [] _
     (by decide) (by decide) rfl⟩

/-- When every entry is retained and none is a `.png`, the loop succeeds
and copies everything. -/
theorem writeEntries_all_copy (placeholderPNG : List Nat) (l : List Entry)
    (h : ∀ e ∈ l, shouldSkipFile e.name = false ∧ ¬ goExt e.name = extPng) :
    writeEntries placeholderPNG true l = Except.ok (l.map copyFileToZip) := by
  induction l with
  | nil => rfl
  | cons e rest ih =>
    obtain ⟨h1, h2⟩ := h e (List.mem_cons_self e rest)
    rw [writeEntries, if_neg (by simp [h1]), if_neg h2, if_pos rfl,
      ih (fun x hx => h x (List.mem_cons_of_mem e hx))]
    rfl

/-- C4: rewriting an archive whose entries are all retained and none of
which is a `.png` succeeds and yields an output with identical entry
names, timestamps, and decoded byte content (only the compression method
is normalized), and rewriting the output again returns it unchanged
(idempotence). -/
theorem rewriteRoundTrip (placeholderPNG : List Nat) (entries : List Entry)
    (h : ∀ e ∈ entries, shouldSkipFile e.name = false ∧ ¬ goExt e.name = extPng) :
    ∃ out,
      writeEntries placeholderPNG true entries = Except.ok out ∧
      out.map Entry.name = entries.map Entry.name ∧
      out.map Entry.modified = entries.map Entry.modified ∧
      out.map Entry.data = entries.map Entry.data ∧
      writeEntries placeholderPNG true out = Except.ok out := by
  refine ⟨entries.map copyFileToZip, writeEntries_all_copy placeholderPNG entries h,
    ?_, ?_, ?_, ?_⟩
  · simp [List.map_map, copyFileToZip, Function.comp]
  · simp [List.map_map, copyFileToZip, Function.comp]
  · simp [List.map_map, copyFileToZip, Function.comp]
  · have h2 : ∀ e ∈ entries.map copyFileToZip,
        shouldSkipFile e.name = false ∧ ¬ goExt e.name = extPng := by
      intro e he
      obtain ⟨x, hx, rfl⟩ := List.mem_map.mp he
      simpa [copyFileToZip] using h x hx
    rw [writeEntries_all_copy placeholderPNG _ h2, List.map_map]
    have hcomp : (copyFileToZip ∘ copyFileToZip) = copyFileToZip := by
      funext e
      rfl
    rw [hcomp]

/-- Concrete instantiation of the C4 theorem on a one-entry archive. -/
theorem rewriteRoundTrip_witness :
    ∃ out,
      writeEntries [9] true [⟨['c', '.', 't', 'x', 't'], 3, 0, [3]⟩] = Except.ok out ∧
      out.map Entry.name = [⟨['c', '.', 't', 'x', 't'], 3, 0, [3]⟩].map Entry.name ∧
      out.map Entry.modified = [⟨['c', '.', 't', 'x', 't'], 3, 0, [3]⟩].map Entry.modified ∧
      out.map Entry.data = [(⟨['c', '.', 't', 'x', 't'], 3, 0, [3]⟩ : Entry)].map Entry.data ∧
      writeEntries [9] true out = Except.ok out :=
  rewriteRoundTrip [9] [⟨['c', '.', 't', 'x', 't'], 3, 0, [3]⟩] (by decide)

/-- C5: the dispatch loop processes every discovered archive independently
(the result list is a pointwise `map`, so no job's outcome influences any
other job or aborts the traversal), and a job whose `processZipFile` fails
at any stage ends with the error logged together with the archive's path
and cause and the archive file removed from disk, while a successful job
ends with the archive atomically replaced by the complete rewritten entry
list (the rewrite is buffered in memory, so the model has no partial
state). -/
theorem jobFailureIsolation (ph : Except Unit (List Nat)) (jobs : List ZipJobInput) :
    dispatchAll ph jobs = jobs.map (runJob ph) ∧
    ∀ j ∈ jobs,
      (∀ s, processZipFile ph j = Except.error s →
        runJob ph j = JobResult.failedLoggedRemoved j.path s) ∧
      (∀ out, processZipFile ph j = Except.ok out →
        runJob ph j = JobResult.written out) := by
  constructor
  · induction jobs with
    | nil => rfl
    | cons j rest ih => simp [dispatchAll, ih]
  · intro j _
    constructor
    · intro s hs
      simp [runJob, hs]
    · intro out hout
      simp [runJob, hout]

/-- Concrete instantiation of the C5 theorem: a corrupt archive between
two good ones is logged and removed while the two others are rewritten. -/
theorem jobFailureIsolation_witness :
    dispatchAll (Except.ok [9])
        [⟨['a'], Except.ok [], true, true⟩,
         ⟨['b'], Except.error (), true, true⟩,
         ⟨['c'], Except.ok [], true, true⟩]
      = [⟨['a'], Except.ok [], true, true⟩,
         ⟨['b'], Except.error (), true, true⟩,
         ⟨['c'], Except.ok [], true, true⟩].map (runJob (Except.ok [9])) ∧
    runJob (Except.ok [9]) ⟨['b'], Except.error (), true, true⟩
      = JobResult.failedLoggedRemoved ['b'] Stage.openStage :=
  ⟨(jobFailureIsolation (Except.ok [9])
      [⟨['a'], Except.ok [], true, true⟩,
       ⟨['b'], Except.error (), true, true⟩,
       ⟨['c'], Except.ok [], true, true⟩]).1,
   ((jobFailureIsolation (Except.ok [9])
      [⟨['a'], Except.ok [], true, true⟩,
       ⟨['b'], Except.error (), true, true⟩,
       ⟨['c'], Except.ok [], true, true⟩]).2
      ⟨['b'], Except.error (), true, true⟩
      (by simp)).1 Stage.openStage rfl⟩

theorem countReadPlaceholder_append (a b : List Event) :
    countReadPlaceholder (a ++ b) = countReadPlaceholder a + countReadPlaceholder b := by
  simp [countReadPlaceholder, List.filter_append]

theorem countStatPlaceholder_append (a b : List Event) :
    countStatPlaceholder (a ++ b) = countStatPlaceholder a + countStatPlaceholder b := by
  simp [countStatPlaceholder, List.filter_append]

/-- Each job reads the placeholder blob from disk exactly once when its zip
parses, and not at all when opening/parsing fails. -/
theorem jobTrace_readCount (ph : Except Unit (List Nat)) (j : ZipJobInput) :
    countReadPlaceholder (jobTrace ph j) = if parseOk j then 1 else 0 := by
  unfold jobTrace parseOk
  cases j.parse with
  | error e => simp [countReadPlaceholder, List.filter, isReadPlaceholder]
  | ok entries =>
    cases ph with
    | error e => simp [countReadPlaceholder, List.filter, isReadPlaceholder]
    | ok p =>
      cases hw : writeEntries p j.copyOk entries with
      | ok out =>
        cases hwk : j.writeOk <;>
          simp [countReadPlaceholder, List.filter, isReadPlaceholder, hw, hwk]
      | error s => simp [countReadPlaceholder, List.filter, isReadPlaceholder, hw]

/-- No job ever stats the placeholder path; only startup does. -/
theorem jobTrace_statCount (ph : Except Unit (List Nat)) (j : ZipJobInput) :
    countStatPlaceholder (jobTrace ph j) = 0 := by
  unfold jobTrace
  cases j.parse with
  | error e => simp [countStatPlaceholder, List.filter, isStatPlaceholder]
  | ok entries =>
    cases ph with
    | error e => simp [countStatPlaceholder, List.filter, isStatPlaceholder]
    | ok p =>
      cases hw : writeEntries p j.copyOk entries with
      | ok out =>
        cases hwk : j.writeOk <;>
          simp [countStatPlaceholder, List.filter, isStatPlaceholder, hw, hwk]
      | error s => simp [countStatPlaceholder, List.filter, isStatPlaceholder, hw]

/-- C6 counterexample: with the placeholder present and two well-formed
archives discovered, the run reads the placeholder blob from disk twice
(once inside each `processZipFile` call), not exactly once for the whole
process. -/
theorem placeholderReadOnce_counterexample :
    countReadPlaceholder
      (mainRun true (Except.ok [9])
        [⟨['a'], Except.ok [], true, true⟩,
         ⟨['b'], Except.ok [], true, true⟩]).1 ≠ 1 := by
  decide

/-- C6 (amended): the placeholder path is stat-checked exactly once, at
process start; the placeholder blob itself is read from disk once per
rewrite job whose archive opens and parses successfully — the read happens
inside `processZipFile`, after the zip is parsed — so a run over `jobs`
reads it `(jobs.filter parseOk).length` times rather than once
process-wide. -/
theorem placeholderReadPerJob (ph : Except Unit (List Nat)) (jobs : List ZipJobInput) :
    countReadPlaceholder (mainRun true ph jobs).1 = (jobs.filter parseOk).length ∧
    countStatPlaceholder (mainRun true ph jobs).1 = 1 := by
  have key : ∀ js : List ZipJobInput,
      countReadPlaceholder ((js.map (jobTrace ph)).flatten) = (js.filter parseOk).length := by
    intro js
    induction js with
    | nil => rfl
    | cons j rest ih =>
      rw [List.map_cons, List.flatten_cons, countReadPlaceholder_append, ih,
        jobTrace_readCount, List.filter_cons]
      cases hp : parseOk j <;> simp [Nat.add_comm]
  have keyStat : ∀ js : List ZipJobInput,
      countStatPlaceholder ((js.map (jobTrace ph)).flatten) = 0 := by
    intro js
    induction js with
    | nil => rfl
    | cons j rest ih =>
      rw [List.map_cons, List.flatten_cons, countStatPlaceholder_append, ih,
        jobTrace_statCount]
  constructor
  · show countReadPlaceholder
      (Event.statPlaceholder :: ((jobs.map (jobTrace ph)).flatten ++ [Event.printDone])) = _
    rw [show Event.statPlaceholder :: ((jobs.map (jobTrace ph)).flatten ++ [Event.printDone])
        = [Event.statPlaceholder] ++ (jobs.map (jobTrace ph)).flatten ++ [Event.printDone]
      from rfl, countReadPlaceholder_append, countReadPlaceholder_append, key]
    simp [countReadPlaceholder, List.filter, isReadPlaceholder]
  · show countStatPlaceholder
      (Event.statPlaceholder :: ((jobs.map (jobTrace ph)).flatten ++ [Event.printDone])) = _
    rw [show Event.statPlaceholder :: ((jobs.map (jobTrace ph)).flatten ++ [Event.printDone])
        = [Event.statPlaceholder] ++ (jobs.map (jobTrace ph)).flatten ++ [Event.printDone]
      from rfl, countStatPlaceholder_append, countStatPlaceholder_append, keyStat]
    simp [countStatPlaceholder, List.filter, isStatPlaceholder]

/-- C7: when the placeholder file is missing at startup, the program emits
the stat followed by the informational message, exits with code 0, and its
trace contains no zip open, no placeholder read, no file write, and no file
removal — zero archives are read or modified, whatever was on disk. -/
theorem missingPlaceholderEarlyReturn (ph : Except Unit (List Nat))
    (jobs : List ZipJobInput) :
    mainRun false ph jobs = ([Event.statPlaceholder, Event.printMissing], 0) ∧
    Event.readPlaceholder ∉ (mainRun false ph jobs).1 ∧
    ∀ p, Event.openZip p ∉ (mainRun false ph jobs).1 ∧
      Event.writeFile p ∉ (mainRun false ph jobs).1 ∧
      Event.removeFile p ∉ (mainRun false ph jobs).1 := by
  refine ⟨rfl, by simp [mainRun], fun p => ⟨by simp [mainRun], by simp [mainRun],
    by simp [mainRun]⟩⟩

mutual

theorem walkNode_eq_nonDirZips :
    ∀ (path : List Char) (t : FSNode), allReadable t = true →
      walkNode path t = (nonDirZips path t, none)
  | path, FSNode.file nm m, _ => by
    rw [walkNode, nonDirZips]
  | path, FSNode.dir nm r cs, h => by
    have hr : r = true ∧ allReadableList cs = true := by
      simpa [allReadable, Bool.and_eq_true] using h
    rw [walkNode, nonDirZips, if_pos hr.1]
    exact walkList_eq_nonDirZips path cs hr.2

theorem walkList_eq_nonDirZips :
    ∀ (dirPath : List Char) (l : FSList), allReadableList l = true →
      walkList dirPath l = (nonDirZipsList dirPath l, none)
  | _, FSList.nil, _ => rfl
  | dirPath, FSList.cons c rest, h => by
    have hc : allReadable c = true ∧ allReadableList rest = true := by
      simpa [allReadableList, Bool.and_eq_true] using h
    rw [walkList, walkNode_eq_nonDirZips (dirPath ++ '/' :: c.name) c hc.1,
      nonDirZipsList]
    simp only
    rw [walkList_eq_nonDirZips dirPath rest hc.2]

end

/-- C8 counterexample: a tree containing one non-directory object of
non-regular mode (e.g. a symlink or fifo) named `a.zip` — the walk
dispatches it (the callback tests only `!info.IsDir()`), so the dispatched
set is not the set of regular `.zip` files. -/
theorem dispatchRegularOnly_counterexample :
    (walkNode ['r'] (FSNode.dir ['r'] true
        (FSList.cons (FSNode.file ['a', '.', 'z', 'i', 'p'] FMode.other) FSList.nil))).1
      ≠ regularZips ['r'] (FSNode.dir ['r'] true
        (FSList.cons (FSNode.file ['a', '.', 'z', 'i', 'p'] FMode.other) FSList.nil)) := by
  decide

/-- C8 (amended): when the traversal completes without directory read
errors, a rewrite job is dispatched for exactly those visited filesystem
objects that are not directories and whose name's extension is `.zip`
(regularity is not checked — the callback tests `!info.IsDir()`); no other
visited object is dispatched, and the walk returns no error. -/
theorem dispatchExactlyNonDirZips (path : List Char) (t : FSNode)
    (h : allReadable t = true) :
    (walkNode path t).1 = nonDirZips path t ∧ (walkNode path t).2 = none := by
  rw [walkNode_eq_nonDirZips path t h]
  exact ⟨rfl, rfl⟩

/-- Concrete instantiation of the amended C8 theorem: a readable tree with
a `.zip` file, a `.txt` file and a subdirectory holding another `.zip`. -/
theorem dispatchExactlyNonDirZips_witness :
    (walkNode ['r'] (FSNode.dir ['r'] true
        (FSList.cons (FSNode.file ['a', '.', 'z', 'i', 'p'] FMode.regular)
          (FSList.cons (FSNode.file ['n', '.', 't', 'x', 't'] FMode.regular)
            (FSList.cons (FSNode.dir ['d'] true
                (FSList.cons (FSNode.file ['b', '.', 'z', 'i', 'p'] FMode.regular) FSList.nil))
              FSList.nil))))).1
      = nonDirZips ['r'] (FSNode.dir ['r'] true
        (FSList.cons (FSNode.file ['a', '.', 'z', 'i', 'p'] FMode.regular)
          (FSList.cons (FSNode.file ['n', '.', 't', 'x', 't'] FMode.regular)
            (FSList.cons (FSNode.dir ['d'] true
                (FSList.cons (FSNode.file ['b', '.', 'z', 'i', 'p'] FMode.regular) FSList.nil))
              FSList.nil)))) ∧
    (walkNode ['r'] (FSNode.dir ['r'] true
        (FSList.cons (FSNode.file ['a', '.', 'z', 'i', 'p'] FMode.regular)
          (FSList.cons (FSNode.file ['n', '.', 't', 'x', 't'] FMode.regular)
            (FSList.cons (FSNode.dir ['d'] true
                (FSList.cons (FSNode.file ['b', '.', 'z', 'i', 'p'] FMode.regular) FSList.nil))
              FSList.nil))))).2 = none :=
  dispatchExactlyNonDirZips ['r'] (FSNode.dir ['r'] true
    (FSList.cons (FSNode.file ['a', '.', 'z', 'i', 'p'] FMode.regular)
      (FSList.cons (FSNode.file ['n', '.', 't', 'x', 't'] FMode.regular)
        (FSList.cons (FSNode.dir ['d'] true
            (FSList.cons (FSNode.file ['b', '.', 'z', 'i', 'p'] FMode.regular) FSList.nil))
          FSList.nil)))) (by decide)

theorem walkList_append_badDir (dirPath bn : List Char) (bcs : FSList) (l2 : FSList) :
    ∀ l1 : FSList, (walkList dirPath l1).2 = none →
      walkList dirPath (FSList.append l1 (FSList.cons (FSNode.dir bn false bcs) l2))
        = ((walkList dirPath l1).1, some (dirPath ++ '/' :: bn))
  | FSList.nil, _ => by
    simp [FSList.append, walkList, walkNode, FSNode.name]
  | FSList.cons c rest, h => by
    rw [FSList.append, walkList]
    rcases hw : walkNode (dirPath ++ '/' :: c.name) c with ⟨d, e⟩
    cases e with
    | some err =>
      exfalso
      rw [walkList, hw] at h
      simp at h
    | none =>
      have hrest : (walkList dirPath rest).2 = none := by
        rw [walkList, hw] at h
        rcases hr : walkList dirPath rest with ⟨d2, e2⟩
        rw [hr] at h
        simpa using h
      simp only [hw]
      rw [walkList_append_badDir dirPath bn bcs l2 rest hrest]
      have h1 : (walkList dirPath (FSList.cons c rest)).1 = d ++ (walkList dirPath rest).1 := by
        rw [walkList, hw]
      rw [h1]

/-- C9 counterexample: a root directory whose first child directory `a`
cannot be read and whose second child is a regular file `b.zip`.  The walk
returns the error for `a` and dispatches nothing: traversal of the rest of
the tree does not continue, so `b.zip` — a `.zip` file in an unaffected
branch — is never dispatched. -/
theorem walkBranchContinues_counterexample :
    walkNode ['r'] (FSNode.dir ['r'] true
        (FSList.cons (FSNode.dir ['a'] false FSList.nil)
          (FSList.cons (FSNode.file ['b', '.', 'z', 'i', 'p'] FMode.regular) FSList.nil)))
      = ([], some ['r', '/', 'a']) ∧
    ['r', '/', 'b', '.', 'z', 'i', 'p'] ∉
      (walkNode ['r'] (FSNode.dir ['r'] true
        (FSList.cons (FSNode.dir ['a'] false FSList.nil)
          (FSList.cons (FSNode.file ['b', '.', 'z', 'i', 'p'] FMode.regular) FSList.nil)))).1 := by
  decide

/-- C9 (amended): when the walk reaches a directory whose listing fails,
the error is returned to the caller (main reports it) and the entire
remaining traversal halts: nothing after the failing directory — neither
its siblings nor any other branch — is visited or dispatched, while jobs
dispatched before the failure are unaffected. -/
theorem walkErrorAbortsTraversal (dirPath nm bn : List Char) (bcs : FSList)
    (l1 l2 : FSList) (h : (walkList dirPath l1).2 = none) :
    walkNode dirPath (FSNode.dir nm true
        (FSList.append l1 (FSList.cons (FSNode.dir bn false bcs) l2)))
      = ((walkList dirPath l1).1, some (dirPath ++ '/' :: bn)) := by
  rw [walkNode, if_pos rfl]
  exact walkList_append_badDir dirPath bn bcs l2 l1 h

/-- Concrete instantiation of the amended C9 theorem: a dispatched `.zip`
before the unreadable directory survives, everything after is skipped. -/
theorem walkErrorAbortsTraversal_witness :
    walkNode ['r'] (FSNode.dir ['r'] true
        (FSList.append (FSList.cons (FSNode.file ['a', '.', 'z', 'i', 'p'] FMode.regular) FSList.nil)
          (FSList.cons (FSNode.dir ['x'] false FSList.nil)
            (FSList.cons (FSNode.file ['b', '.', 'z', 'i', 'p'] FMode.regular) FSList.nil))))
      = ((walkList ['r'] (FSList.cons (FSNode.file ['a', '.', 'z', 'i', 'p'] FMode.regular) FSList.nil)).1,
         some ['r', '/', 'x']) :=
  walkErrorAbortsTraversal ['r'] ['r'] ['x'] FSList.nil
    (FSList.cons (FSNode.file ['a', '.', 'z', 'i', 'p'] FMode.regular) FSList.nil)
    (FSList.cons (FSNode.file ['b', '.', 'z', 'i', 'p'] FMode.regular) FSList.nil)
    (by decide)
